import Mathlib

/-!
# Taillard instance generator (`src/c_taillard.c`)

A shallow embedding of the C translation unit and the properties established about it.

* C `int` and `long` values are Lean `Int`s, with exact arithmetic: `/` and `%` are the
  truncating `Int.tdiv` and `Int.tmod`, and the only narrowing, `(int)` of the value `unif`
  returns, is explicit (`longToInt`).
* `float` and `double` values are the rationals they denote.  An arithmetic operation
  returns the exact result rounded to nearest, ties to even, to 24 (`float`) or 53
  (`double`) significant bits.  The exponent range is not bounded: every value reached here
  has magnitude in `[2 ^ (-31), 2 ^ 63]`, well inside the normal range of both formats.
* The buffer `ptm` points to is a `List Int` (`none` for a null pointer); a store outside the
  buffer stops the run with a `Fault`.
* The source reads `time_seeds[id - 1]` without a check.  A read outside the table yields the
  word that memory holds at that place, given by a parameter `beyond` (index to word), about
  which nothing is assumed.
-/

namespace Taillard

/-! ## Data -/

/-- The table `time_seeds[]` (c_taillard.c, lines 6-30), entry `k` belonging to `ta(k+1)`. -/
def time_seeds : List Int :=
  [
    873654221, 379008056, 1866992158, 216771124, 495070989,
    402959317, 1369363414, 2021925980, 573109518, 88325120,
    587595453, 1401007982, 873136276, 268827376, 1634173168,
    691823909, 73807235, 1273398721, 2065119309, 1672900551,
    479340445, 268827376, 1958948863, 918272953, 555010963,
    2010851491, 1519833303, 1748670931, 1923497586, 1829909967,
    1328042058, 200382020, 496319842, 1203030903, 1730708564,
    450926852, 1303135678, 1273398721, 587288402, 248421594,
    1958948863, 575633267, 655816003, 1977864101, 93805469,
    1803345551, 49612559, 1899802599, 2013025619, 578962478,
    1539989115, 691823909, 655816003, 1315102446, 1949668355,
    1923497586, 1805594913, 1861070898, 715643788, 464843328,
    896678084, 1179439976, 1122278347, 416756875, 267829958,
    1835213917, 1328833962, 1418570761, 161033112, 304212574,
    1539989115, 655816003, 960914243, 1915696806, 2013025619,
    1168140026, 1923497586, 167698528, 1528387973, 993794175,
    450926852, 1462772409, 1021685265, 83696007, 508154254,
    1861070898, 26482542, 444956424, 2115448041, 118254244,
    471503978, 1215892992, 135346136, 1602504050, 160037322,
    551454346, 519485142, 383947510, 1968171878, 540872513,
    2013025619, 475051709, 914834335, 810642687, 1019331795,
    2056065863, 1342855162, 1325809384, 1988803007, 765656702,
    1368624604, 450181436, 1927888393, 1759567256, 606425239,
    19268348, 1298201670, 2041736264, 379756761, 28837162
  ]

/-- The entry of `time_seeds` at index `i`, for an index inside the table. -/
def seedAt (i : Int) : Option Int :=
  if 0 ≤ i then time_seeds[i.toNat]? else none

/-- The read `time_seeds[i]` as line 75 performs it, without a check: the entry for an index
inside the table, and otherwise the word `beyond i` that memory holds at that place. -/
def seedRead (beyond : Int → Int) (i : Int) : Int :=
  match seedAt i with
  | some seed => seed
  | none => beyond i

/-! ## Instance sizes -/

/-- Function `taillard_get_nb_jobs` (lines 33-40). -/
def taillard_get_nb_jobs (id : Int) : Int :=
  if id > 110 then 500
  else if id > 90 then 200
  else if id > 60 then 100
  else if id > 30 then 50
  else 20

/-- Function `taillard_get_nb_machines` (lines 42-56). -/
def taillard_get_nb_machines (id : Int) : Int :=
  if id > 110 then 20
  else if id > 100 then 20
  else if id > 90 then 10
  else if id > 80 then 20
  else if id > 70 then 10
  else if id > 60 then 5
  else if id > 50 then 20
  else if id > 40 then 10
  else if id > 30 then 5
  else if id > 20 then 20
  else if id > 10 then 10
  else 5

/-! ## Floating point -/

/-- Nearest integer to `q`, a tie going to the even neighbour. -/
def roundNearestEven (q : ℚ) : Int :=
  let f : Int := ⌊q⌋
  let r : ℚ := q - f
  if r < 1 / 2 then f
  else if 1 / 2 < r then f + 1
  else if f % 2 = 0 then f
  else f + 1

/-- The value `q` rounded to `p` significant bits, to nearest, ties to even: with
`2 ^ e ≤ |q| < 2 ^ (e + 1)` the result is a multiple of `2 ^ (e - p + 1)`. -/
def roundSig (p : Nat) (q : ℚ) : ℚ :=
  if q = 0 then 0
  else
    let e : Int := Int.log 2 |q| - ((p : Int) - 1)
    (roundNearestEven (q / (2 : ℚ) ^ e) : ℚ) * (2 : ℚ) ^ e

/-- The conversion `(float)x` of an integer. -/
def toFloat32 (x : Int) : ℚ := roundSig 24 (x : ℚ)

/-- The conversion of an integer operand to `double`. -/
def toFloat64 (x : Int) : ℚ := roundSig 53 (x : ℚ)

/-- The quotient `a / b` of two `float`s, a `float`. -/
def fdiv32 (a b : ℚ) : ℚ := roundSig 24 (a / b)

/-- The product `a * b` of two `double`s, a `double`. -/
def fmul64 (a b : ℚ) : ℚ := roundSig 53 (a * b)

/-- The conversion `(long)v` of a floating value: the fraction is discarded. -/
def truncToLong (v : ℚ) : Int := if 0 ≤ v then ⌊v⌋ else ⌈v⌉

/-- The conversion `(int)v` of a `long`, reduced to 32 bits in two-complement form. -/
def longToInt (v : Int) : Int := (v + 2147483648) % 4294967296 - 2147483648

/-! ## The generator -/

/-- Function `unif` (lines 58-69).  The result is the pair of the returned value and the value
left in `*seed`.  `value_0_1` is a `double` holding the `float` quotient (the widening is
exact), so the product with `high - low + 1` is a `double` product. -/
def unif (seed low high : Int) : Int × Int :=
  let m : Int := 2147483647
  let a : Int := 16807
  let b : Int := 127773
  let c : Int := 2836
  let k : Int := Int.tdiv seed b
  let seed1 : Int := a * Int.tmod seed b - k * c
  let seed2 : Int := if seed1 < 0 then seed1 + m else seed1
  let value_0_1 : ℚ := fdiv32 (toFloat32 seed2) (toFloat32 m)
  (low + truncToLong (fmul64 value_0_1 (toFloat64 (high - low + 1))), seed2)

/-- Why a run stopped early. -/
inductive Fault where
  | bufferIndex
  deriving DecidableEq, Repr

/-- The state of `taillard_get_processing_times` while it runs and when it stops. -/
structure Run where
  /-- The local `time_seed`. -/
  time_seed : Int
  /-- The block the local pointer `ptm` designates (`none`: the pointer is null). -/
  ptm : Option (List Int)
  /-- The indices stored to so far, oldest first. -/
  stores : List Nat
  /-- The fault that stopped the run, if any. -/
  fault : Option Fault
  deriving DecidableEq, Repr

/-- The loop body `ptm[i*N+j] = (int)unif(&time_seed, 1, 99)` (line 83). -/
def cellStep (N i j : Int) (s : Run) : Run :=
  match s.fault with
  | some _ => s
  | none =>
    let r := unif s.time_seed 1 99
    let idx : Int := i * N + j
    match s.ptm with
    | none => { s with time_seed := r.2, fault := some Fault.bufferIndex }
    | some buf =>
      if 0 ≤ idx ∧ idx < buf.length then
        { time_seed := r.2
          ptm := some (buf.set idx.toNat (longToInt r.1))
          stores := s.stores ++ [idx.toNat]
          fault := none }
      else { s with time_seed := r.2, fault := some Fault.bufferIndex }

/-- The inner loop `for (j = 0; j < N; j++)` (lines 82-84). -/
def jobLoop (N i : Int) (s : Run) : Run :=
  (List.range N.toNat).foldl (fun (t : Run) (j : Nat) => cellStep N i j t) s

/-- The outer loop `for (i = 0; i < M; i++)` (lines 81-85). -/
def machineLoop (N M : Int) (s : Run) : Run :=
  (List.range M.toNat).foldl (fun (t : Run) (i : Nat) => jobLoop N i t) s

/-- Function `taillard_get_processing_times` (lines 71-86), with `beyond` the words that
memory holds around `time_seeds`.  No test on `id` is made: the seed is read, the null
pointer is replaced, the loops run.  A block obtained from `malloc` starts zero-filled here;
the loops overwrite each of its cells. -/
def taillard_get_processing_times (beyond : Int → Int) (ptm : Option (List Int)) (id : Int) :
    Run :=
  let N := taillard_get_nb_jobs id
  let M := taillard_get_nb_machines id
  let time_seed := seedRead beyond (id - 1)
  let ptm1 : Option (List Int) :=
    match ptm with
    | none => some (List.replicate (N * M).toNat 0)
    | some buf => some buf
  machineLoop N M { time_seed := time_seed, ptm := ptm1, stores := [], fault := none }

/-- What `taillard_get_instance_data` leaves behind: the cells `*N` and `*M` and the run of
the generator. -/
structure InstanceData where
  N : Int
  M : Int
  run : Run
  deriving DecidableEq, Repr

/-- Function `taillard_get_instance_data` (lines 88-94).  The old contents of `*N` and `*M`
are never read, so the two cells appear in the result only. -/
def taillard_get_instance_data (beyond : Int → Int) (ptm : Option (List Int)) (id : Int) :
    InstanceData :=
  let N := taillard_get_nb_jobs id
  let M := taillard_get_nb_machines id
  { N := N, M := M, run := taillard_get_processing_times beyond ptm id }

/-! ## Reference notions used in the statements -/

/-- The ladder of `taillard_get_nb_machines` as data: a rung `(t, v)` stands for
"`id > t` gives `v`", the rungs being tried from the head. -/
def machineLadder : List (Int × Int) :=
  [(110, 20), (100, 20), (90, 10), (80, 20), (70, 10), (60, 5),
   (50, 20), (40, 10), (30, 5), (20, 20), (10, 10)]

/-- The value of the first rung of a ladder that `id` exceeds, `5` when there is none. -/
def firstRung (id : Int) : List (Int × Int) → Int
  | [] => 5
  | r :: rest => if id > r.1 then r.2 else firstRung id rest

/-- The twelve `(jobs, machines)` configurations of the suite, in id order. -/
def configurations : List (Int × Int) :=
  [(20, 5), (20, 10), (20, 20), (50, 5), (50, 10), (50, 20),
   (100, 5), (100, 10), (100, 20), (200, 10), (200, 20), (500, 20)]

/-- The `(jobs, machines)` pair of an instance. -/
def instanceSize (id : Int) : Int × Int :=
  (taillard_get_nb_jobs id, taillard_get_nb_machines id)

/-- The cursor after `n` successive calls `unif(cursor, 1, 99)` from `seed`. -/
def cursorAfter (seed : Int) : Nat → Int
  | 0 => seed
  | n + 1 => (unif (cursorAfter seed n) 1 99).2

/-- The value returned by call number `n + 1` of the successive calls
`unif(cursor, 1, 99)` that start from `seed`. -/
def nthDraw (seed : Int) (n : Nat) : Int :=
  (unif (cursorAfter seed n) 1 99).1

/-! ## Integer forms -/

/-- The value `unif` leaves in `*seed` (lines 63-66), on its own. -/
def nextSeed (seed : Int) : Int :=
  let k : Int := Int.tdiv seed 127773
  let seed1 : Int := 16807 * Int.tmod seed 127773 - k * 2836
  if seed1 < 0 then seed1 + 2147483647 else seed1

/-- Integer form of `roundNearestEven (x / 2 ^ s)`. -/
def rneShift (x s : Nat) : Nat :=
  let q := x / 2 ^ s
  let r := x % 2 ^ s
  if 2 * r < 2 ^ s then q
  else if 2 ^ s < 2 * r then q + 1
  else if q % 2 = 0 then q
  else q + 1

/-- The number of halvings that bring `x` below 2, at most `fuel` of them. -/
def halvings : Nat → Nat → Nat
  | 0, _ => 0
  | fuel + 1, x => if x < 2 then 0 else halvings fuel (x / 2) + 1

/-- The position of the leading one bit of `x`, which is `⌊log₂ x⌋` (0 for `x = 0`). -/
def leadingBit (x : Nat) : Nat := halvings x x

/-- Integer form of `roundSig p x` for a natural number `x`. -/
def roundNat (p x : Nat) : Nat :=
  let s := leadingBit x + 1 - p
  rneShift x s * 2 ^ s

/-- The step `x ↦ 16807 * x mod (2 ^ 31 - 1)`, which is what `unif` leaves in `*seed` when
it starts from a natural number below the modulus. -/
def lcgNat (x : Nat) : Nat := 16807 * x % 2147483647

/-- Whether each of the `n` cursors that follow `x` is positive and below `bound`. -/
def streamBelow (bound : Nat) : Nat → Nat → Bool
  | 0, _ => true
  | n + 1, x =>
    match lcgNat x with
    | 0 => false
    | y + 1 => Nat.blt (y + 1) bound && streamBelow bound n (y + 1)

/-- The number of cells of instance `id`. -/
def instanceCells (id : Int) : Nat :=
  (taillard_get_nb_machines id * taillard_get_nb_jobs id).toNat

/-- Whether, for each of the 120 instances, the seed is a natural number below the modulus
and every cursor reached while the matrix is filled is positive and below `2 ^ 31 - 64`. -/
def tableBelow : Bool :=
  (List.range 120).all fun i =>
    match time_seeds[i]? with
    | some s =>
      decide (0 ≤ s) && decide (s < 2147483647) &&
        streamBelow 2147483584 (instanceCells ((i : Int) + 1)) s.toNat
    | none => false

/-- The buffer after the first `K` draws from `seed` have been stored in cells `0 .. K-1`. -/
def drawsInto (seed : Int) (buf : List Int) : Nat → List Int
  | 0 => buf
  | K + 1 => (drawsInto seed buf K).set K (longToInt (nthDraw seed K))

/-- The state of a run on `buf` from `seed` after `K` cells. -/
def runAfter (seed : Int) (buf : List Int) (K : Nat) : Run :=
  { time_seed := cursorAfter seed K
    ptm := some (drawsInto seed buf K)
    stores := List.range K
    fault := none }

/-! ## Reference notions for the generator -/

/-- A value reduced to 32 bits in two-complement form, as arithmetic on a 32-bit `long`
yields it. -/
def wrap32 (v : Int) : Int := (v + 2147483648) % 4294967296 - 2147483648

/-- Whether a value fits in a signed 32-bit integer. -/
def fits32 (v : Int) : Prop := -2147483648 ≤ v ∧ v ≤ 2147483647

/-- The state update of `unif` (lines 63-66) where `long` has 32 bits: every operation
result is reduced by `wrap32`. -/
def nextSeed32 (seed : Int) : Int :=
  let k : Int := wrap32 (Int.tdiv seed 127773)
  let seed1 : Int := wrap32 (wrap32 (16807 * wrap32 (Int.tmod seed 127773)) - wrap32 (k * 2836))
  if seed1 < 0 then wrap32 (seed1 + 2147483647) else seed1

instance fits32Decidable (v : Int) : Decidable (fits32 v) := by
  unfold fits32
  infer_instance

/-- The product `a * b` of two `float`s, a `float`. -/
def fmul32 (a b : ℚ) : ℚ := roundSig 24 (a * b)

/-- The value `unif(seed, 1, 99)` would return from the new state `x'` if the product were a
`float` product: integer to `float`, `float` division, `float` multiplication, truncation. -/
def unifSingle (x' : Int) : Int :=
  1 + truncToLong (fmul32 (fdiv32 (toFloat32 x') (toFloat32 2147483647)) (toFloat32 99))

/-- Whether none of the `n` cursors that follow `x` is 0 or 1. -/
def avoidsOne : Nat → Nat → Bool
  | 0, _ => true
  | n + 1, x =>
    match lcgNat x with
    | 0 => false
    | y + 1 => !(Nat.beq y 0) && avoidsOne n (y + 1)

/-! ## Rounding -/

theorem roundNearestEven_intCast (n : Int) : roundNearestEven (n : ℚ) = n := by
  simp [roundNearestEven]

theorem roundNearestEven_shift (x s : Nat) :
    roundNearestEven ((x : ℚ) / (2 : ℚ) ^ s) = (rneShift x s : Int) := by
  have hpos : (0 : ℚ) < (2 : ℚ) ^ s := by positivity
  have hfloor : ⌊(x : ℚ) / (2 : ℚ) ^ s⌋ = ((x / 2 ^ s : Nat) : Int) := by
    have h := Rat.floor_intCast_div_natCast (x : Int) (2 ^ s)
    simpa using h
  have hsplit : (x : ℚ) / (2 : ℚ) ^ s - ((x / 2 ^ s : Nat) : ℚ) = ((x % 2 ^ s : Nat) : ℚ) / (2 : ℚ) ^ s := by
    have h := Nat.div_add_mod x (2 ^ s)
    have h2 : (x : ℚ) = (2 : ℚ) ^ s * ((x / 2 ^ s : Nat) : ℚ) + ((x % 2 ^ s : Nat) : ℚ) := by
      exact_mod_cast h.symm
    field_simp
    linarith
  have hlt : ((x % 2 ^ s : Nat) : ℚ) / (2 : ℚ) ^ s < 1 / 2 ↔ 2 * (x % 2 ^ s) < 2 ^ s := by
    rw [div_lt_div_iff₀ hpos (by norm_num)]
    constructor
    · intro h
      have : ((2 * (x % 2 ^ s) : Nat) : ℚ) < ((2 ^ s : Nat) : ℚ) := by push_cast; linarith
      exact_mod_cast this
    · intro h
      have : ((2 * (x % 2 ^ s) : Nat) : ℚ) < ((2 ^ s : Nat) : ℚ) := by exact_mod_cast h
      push_cast at this; linarith
  have hgt : 1 / 2 < ((x % 2 ^ s : Nat) : ℚ) / (2 : ℚ) ^ s ↔ 2 ^ s < 2 * (x % 2 ^ s) := by
    rw [div_lt_div_iff₀ (by norm_num) hpos]
    constructor
    · intro h
      have : ((2 ^ s : Nat) : ℚ) < ((2 * (x % 2 ^ s) : Nat) : ℚ) := by push_cast; linarith
      exact_mod_cast this
    · intro h
      have : ((2 ^ s : Nat) : ℚ) < ((2 * (x % 2 ^ s) : Nat) : ℚ) := by exact_mod_cast h
      push_cast at this; linarith
  have hpar : ((x / 2 ^ s : Nat) : Int) % 2 = 0 ↔ (x / 2 ^ s) % 2 = 0 := by omega
  unfold roundNearestEven rneShift
  simp only [hfloor, Int.cast_natCast, hsplit, hlt, hgt, hpar]
  split_ifs <;> simp


theorem log_two_eq_of_bounds {q : ℚ} {k : Int} (hlo : (2 : ℚ) ^ k ≤ q) (hhi : q < (2 : ℚ) ^ (k + 1)) :
    Int.log 2 q = k := by
  have hq : 0 < q := lt_of_lt_of_le (by positivity) hlo
  have h1 : k ≤ Int.log 2 q :=
    (Int.zpow_le_iff_le_log (by norm_num) hq).1 (by exact_mod_cast hlo)
  have h2 : Int.log 2 q < k + 1 :=
    (Int.lt_zpow_iff_log_lt (by norm_num) hq).1 (by exact_mod_cast hhi)
  omega

theorem halvings_eq_log2 (fuel x : Nat) (h : x ≤ fuel) : halvings fuel x = Nat.log2 x := by
  induction fuel generalizing x with
  | zero =>
    have hx : x = 0 := by omega
    subst hx
    rw [Nat.log2]
    simp [halvings]
  | succ f ih =>
    rw [Nat.log2]
    unfold halvings
    by_cases hlt : x < 2
    · simp [hlt, Nat.not_le.2 hlt]
    · have hge : 2 ≤ x := by omega
      simp only [hlt, hge, if_true, if_false]
      rw [ih (x / 2) (by omega)]

theorem leadingBit_eq_log2 (x : Nat) : leadingBit x = Nat.log2 x :=
  halvings_eq_log2 x x le_rfl

theorem roundNat_eq (p x : Nat) :
    roundNat p x = rneShift x (Nat.log2 x + 1 - p) * 2 ^ (Nat.log2 x + 1 - p) := by
  simp only [roundNat, leadingBit_eq_log2]

theorem log2_bounds {x : Nat} (hx : x ≠ 0) : 2 ^ Nat.log2 x ≤ x ∧ x < 2 ^ (Nat.log2 x + 1) :=
  ⟨Nat.log2_self_le hx, Nat.lt_log2_self⟩

theorem rneShift_zero (x : Nat) : rneShift x 0 = x := by
  simp [rneShift, Nat.mod_one]

/-- A multiple `n * 2 ^ z` with `n ≤ 2 ^ p` has at most `p` significant bits: rounding to
`p` bits returns it. -/
theorem roundSig_representable (p n : Nat) (z : Int) (hp : 1 ≤ p) (hn : n ≤ 2 ^ p) :
    roundSig p ((n : ℚ) * (2 : ℚ) ^ z) = (n : ℚ) * (2 : ℚ) ^ z := by
  rcases Nat.eq_zero_or_pos n with rfl | hpos
  · simp [roundSig]
  have hn0 : n ≠ 0 := by omega
  have h2z : (0 : ℚ) < (2 : ℚ) ^ z := by positivity
  have hq0 : (n : ℚ) * (2 : ℚ) ^ z ≠ 0 := by positivity
  obtain ⟨hlo, hhi⟩ := log2_bounds hn0
  set a := Nat.log2 n with ha
  have hap : a ≤ p := by
    by_contra hcon
    have : 2 ^ (p + 1) ≤ 2 ^ a := Nat.pow_le_pow_right (by norm_num) (by omega)
    have : 2 ^ p < 2 ^ (p + 1) := Nat.pow_lt_pow_right (by norm_num) (by omega)
    omega
  have hlog : Int.log 2 |(n : ℚ) * (2 : ℚ) ^ z| = (a : Int) + z := by
    rw [abs_of_pos (by positivity)]
    apply log_two_eq_of_bounds
    · rw [zpow_add₀ (by norm_num), zpow_natCast]
      apply mul_le_mul_of_nonneg_right _ h2z.le
      exact_mod_cast hlo
    · rw [show (a : Int) + z + 1 = ((a + 1 : Nat) : Int) + z by push_cast; ring,
        zpow_add₀ (by norm_num), zpow_natCast]
      apply mul_lt_mul_of_pos_right _ h2z
      exact_mod_cast hhi
  -- the scaled value is an integer
  have hint : ∃ t : Int, (n : ℚ) * (2 : ℚ) ^ z / (2 : ℚ) ^ ((a : Int) + z - ((p : Int) - 1)) = (t : ℚ) := by
    have hrw : (n : ℚ) * (2 : ℚ) ^ z / (2 : ℚ) ^ ((a : Int) + z - ((p : Int) - 1))
        = (n : ℚ) * (2 : ℚ) ^ ((p : Int) - 1 - a) := by
      rw [mul_div_assoc, ← zpow_sub₀ (by norm_num)]
      congr 2
      ring
    rw [hrw]
    rcases Nat.lt_or_ge a p with hlt | hge
    · refine ⟨(n : Int) * 2 ^ (p - 1 - a), ?_⟩
      have : (p : Int) - 1 - a = ((p - 1 - a : Nat) : Int) := by omega
      rw [this, zpow_natCast]
      push_cast
      ring
    · have hap2 : a = p := by omega
      have hn2 : n = 2 ^ p := by rw [hap2] at hlo; omega
      refine ⟨2 ^ (p - 1), ?_⟩
      rw [hn2, hap2]
      have : (p : Int) - 1 - p = -1 := by ring
      rw [this]
      push_cast
      have hpp : (2 : ℚ) ^ p = 2 ^ (p - 1) * 2 := by
        rw [← pow_succ]
        congr 1
        omega
      rw [hpp]
      simp
  obtain ⟨t, ht⟩ := hint
  unfold roundSig
  rw [if_neg hq0]
  simp only [hlog, ht, roundNearestEven_intCast]
  rw [← ht]
  field_simp


theorem log_two_natCast (x : Nat) : Int.log 2 |(x : ℚ)| = (Nat.log2 x : Int) := by
  rw [abs_of_nonneg (by positivity), Int.log_natCast, Nat.log2_eq_log_two]

/-- On a natural number `roundSig` is `roundNat`. -/
theorem roundSig_natCast (p x : Nat) (hp : 1 ≤ p) : roundSig p (x : ℚ) = (roundNat p x : ℚ) := by
  rcases Nat.eq_zero_or_pos x with rfl | hpos
  · simp [roundSig, roundNat_eq, rneShift]
  have hx0 : x ≠ 0 := by omega
  obtain ⟨hlo, hhi⟩ := log2_bounds hx0
  rcases Nat.lt_or_ge (Nat.log2 x + 1) p with hsmall | hbig
  · have hs : Nat.log2 x + 1 - p = 0 := by omega
    have hle : x ≤ 2 ^ p := by
      have : 2 ^ (Nat.log2 x + 1) ≤ 2 ^ p := Nat.pow_le_pow_right (by norm_num) (by omega)
      omega
    have h := roundSig_representable p x 0 hp hle
    simp only [zpow_zero, mul_one] at h
    rw [h]
    simp [roundNat_eq, hs, rneShift_zero]
  · have hxq : (x : ℚ) ≠ 0 := by positivity
    have he : (Nat.log2 x : Int) - ((p : Int) - 1) = ((Nat.log2 x + 1 - p : Nat) : Int) := by omega
    unfold roundSig
    rw [if_neg hxq]
    simp only [log_two_natCast, he, zpow_natCast, roundNearestEven_shift]
    simp [roundNat_eq]

theorem rneShift_le (p x : Nat) : rneShift x (Nat.log2 x + 1 - p) ≤ 2 ^ p := by
  have hdiv : x / 2 ^ (Nat.log2 x + 1 - p) < 2 ^ p := by
    rw [Nat.div_lt_iff_lt_mul (by positivity), ← pow_add]
    calc x < 2 ^ (Nat.log2 x + 1) := Nat.lt_log2_self
      _ ≤ 2 ^ (p + (Nat.log2 x + 1 - p)) := Nat.pow_le_pow_right (by norm_num) (by omega)
  unfold rneShift
  simp only
  split_ifs <;> omega

/-! ## The generator -/

theorem unif_snd (seed low high : Int) : (unif seed low high).2 = nextSeed seed := rfl

theorem toFloat32_natCast (x : Nat) : toFloat32 (x : Int) = (roundNat 24 x : ℚ) := by
  unfold toFloat32
  rw [Int.cast_natCast]
  exact roundSig_natCast 24 x (by norm_num)

theorem toFloat32_modulus : toFloat32 2147483647 = 2147483648 := by
  have h := toFloat32_natCast 2147483647
  have e : roundNat 24 2147483647 = 2147483648 := by decide!
  rw [e] at h
  exact_mod_cast h

theorem toFloat64_width : toFloat64 (99 - 1 + 1) = 99 := by
  have h := roundSig_natCast 53 99 (by norm_num)
  have e : roundNat 53 99 = 99 := by decide!
  rw [e] at h
  unfold toFloat64
  exact_mod_cast h

/-- The value `unif(seed, 1, 99)` returns, in integer arithmetic. -/
theorem unif_fst (seed : Int) (h : 0 ≤ nextSeed seed) :
    (unif seed 1 99).1 = 1 + ((99 * roundNat 24 (nextSeed seed).toNat / 2 ^ 31 : Nat) : Int) := by
  obtain ⟨x, hx⟩ := Int.eq_ofNat_of_zero_le h
  have hu : (unif seed 1 99).1 = 1 + truncToLong (fmul64 (fdiv32 (toFloat32 (nextSeed seed))
      (toFloat32 2147483647)) (toFloat64 (99 - 1 + 1))) := rfl
  rw [hu, hx, Int.toNat_ofNat, toFloat32_natCast, toFloat32_modulus, toFloat64_width]
  set s := Nat.log2 x + 1 - 24 with hs
  set n := rneShift x s with hn
  have hnle : n ≤ 2 ^ 24 := rneShift_le 24 x
  have hR : roundNat 24 x = n * 2 ^ s := roundNat_eq 24 x
  have hv : ((roundNat 24 x : Nat) : ℚ) / 2147483648 = (n : ℚ) * (2 : ℚ) ^ ((s : Int) - 31) := by
    rw [hR, zpow_sub₀ (by norm_num), zpow_natCast]
    push_cast
    norm_num
    ring
  have hdiv : fdiv32 ((roundNat 24 x : Nat) : ℚ) 2147483648 = (n : ℚ) * (2 : ℚ) ^ ((s : Int) - 31) := by
    unfold fdiv32
    rw [hv]
    exact roundSig_representable 24 n _ (by norm_num) hnle
  have hmul : fmul64 ((n : ℚ) * (2 : ℚ) ^ ((s : Int) - 31)) 99
      = ((n * 99 : Nat) : ℚ) * (2 : ℚ) ^ ((s : Int) - 31) := by
    unfold fmul64
    have e : (n : ℚ) * (2 : ℚ) ^ ((s : Int) - 31) * 99
        = ((n * 99 : Nat) : ℚ) * (2 : ℚ) ^ ((s : Int) - 31) := by push_cast; ring
    rw [e]
    apply roundSig_representable 53 (n * 99) _ (by norm_num)
    have : (2 : Nat) ^ 53 = 2 ^ 24 * 536870912 := by norm_num
    omega
  rw [hdiv, hmul]
  have hval : ((n * 99 : Nat) : ℚ) * (2 : ℚ) ^ ((s : Int) - 31)
      = (((99 * roundNat 24 x : Nat) : Int) : ℚ) / ((2 ^ 31 : Nat) : ℚ) := by
    rw [hR, zpow_sub₀ (by norm_num), zpow_natCast]
    push_cast
    norm_num
    ring
  have hnn : (0 : ℚ) ≤ ((n * 99 : Nat) : ℚ) * (2 : ℚ) ^ ((s : Int) - 31) := by positivity
  unfold truncToLong
  rw [if_pos hnn, hval, Rat.floor_intCast_div_natCast]
  norm_cast

theorem nextSeed_natCast (x : Nat) (hx : x < 2147483647) :
    nextSeed (x : Int) = (lcgNat x : Int) := by
  unfold nextSeed lcgNat
  simp only
  rw [Int.tdiv_eq_ediv (by omega) (by norm_num), Int.tmod_eq_emod (by omega) (by norm_num)]
  split_ifs <;> omega

theorem nextSeed_range (s : Int) (h0 : 0 ≤ s) (hm : s < 2147483647) :
    0 ≤ nextSeed s ∧ nextSeed s < 2147483647 := by
  unfold nextSeed
  simp only
  rw [Int.tdiv_eq_ediv h0 (by norm_num), Int.tmod_eq_emod h0 (by norm_num)]
  split_ifs <;> omega

theorem cursorAfter_range (seed : Int) (h0 : 0 ≤ seed) (hm : seed < 2147483647) (n : Nat) :
    0 ≤ cursorAfter seed n ∧ cursorAfter seed n < 2147483647 := by
  induction n with
  | zero => exact ⟨h0, hm⟩
  | succ k ih =>
    show 0 ≤ nextSeed (cursorAfter seed k) ∧ nextSeed (cursorAfter seed k) < 2147483647
    exact nextSeed_range _ ih.1 ih.2

theorem roundNat_le (x : Nat) (hx : x < 2 ^ 31) : roundNat 24 x ≤ 2 ^ 31 := by
  rw [roundNat_eq]
  have hn := rneShift_le 24 x
  rcases Nat.eq_zero_or_pos x with rfl | hpos
  · simp [rneShift]
  have hk : Nat.log2 x < 31 := (Nat.log2_lt (by omega)).2 hx
  have hs : 2 ^ (Nat.log2 x + 1 - 24) ≤ 2 ^ 7 := Nat.pow_le_pow_right (by norm_num) (by omega)
  calc rneShift x (Nat.log2 x + 1 - 24) * 2 ^ (Nat.log2 x + 1 - 24)
      ≤ 2 ^ 24 * 2 ^ 7 := Nat.mul_le_mul hn hs
    _ = 2 ^ 31 := by norm_num

theorem roundNat_lt (x : Nat) (hx : x < 2147483584) : roundNat 24 x < 2 ^ 31 := by
  rw [roundNat_eq]
  rcases Nat.eq_zero_or_pos x with rfl | hpos
  · simp [rneShift]
  have hx0 : x ≠ 0 := by omega
  have hk : Nat.log2 x < 31 := (Nat.log2_lt hx0).2 (by norm_num; omega)
  obtain ⟨hlo, hhi⟩ := log2_bounds hx0
  rcases Nat.lt_or_ge (Nat.log2 x) 30 with hsmall | hbig
  · have hn := rneShift_le 24 x
    have hs : 2 ^ (Nat.log2 x + 1 - 24) ≤ 2 ^ 6 := Nat.pow_le_pow_right (by norm_num) (by omega)
    calc rneShift x (Nat.log2 x + 1 - 24) * 2 ^ (Nat.log2 x + 1 - 24)
        ≤ 2 ^ 24 * 2 ^ 6 := Nat.mul_le_mul hn hs
      _ < 2 ^ 31 := by norm_num
  · have hk30 : Nat.log2 x = 30 := by omega
    rw [hk30]
    unfold rneShift
    norm_num
    split_ifs <;> omega

/-- The value `unif(seed, 1, 99)` returns is in `[1, 100]` when the cursor stays in
`[0, 2 ^ 31 - 1)`, and in `[1, 99]` when the new cursor is below `2 ^ 31 - 64`. -/
theorem unif_fst_bounds (seed : Int) (h0 : 0 ≤ nextSeed seed) :
    (nextSeed seed < 2147483647 → 1 ≤ (unif seed 1 99).1 ∧ (unif seed 1 99).1 ≤ 100) ∧
    (nextSeed seed < 2147483584 → 1 ≤ (unif seed 1 99).1 ∧ (unif seed 1 99).1 ≤ 99) := by
  rw [unif_fst seed h0]
  constructor
  · intro h
    have hR := roundNat_le (nextSeed seed).toNat (by norm_num; omega)
    norm_num at hR ⊢
    omega
  · intro h
    have hR := roundNat_lt (nextSeed seed).toNat (by omega)
    norm_num at hR ⊢
    omega

theorem longToInt_small (v : Int) (h1 : 1 ≤ v) (h2 : v ≤ 100) : longToInt v = v := by
  unfold longToInt
  omega

theorem nthDraw_bounds (seed : Int) (h0 : 0 ≤ seed) (hm : seed < 2147483647) (n : Nat) :
    1 ≤ nthDraw seed n ∧ nthDraw seed n ≤ 100 := by
  have hc := cursorAfter_range seed h0 hm n
  have hn := nextSeed_range _ hc.1 hc.2
  exact (unif_fst_bounds (cursorAfter seed n) hn.1).1 hn.2

/-! ## The loops -/

theorem drawsInto_length (seed : Int) (buf : List Int) (K : Nat) :
    (drawsInto seed buf K).length = buf.length := by
  induction K with
  | zero => rfl
  | succ k ih => simp [drawsInto, ih]

theorem drawsInto_getElem?_ge (seed : Int) (buf : List Int) (K c : Nat) (h : K ≤ c) :
    (drawsInto seed buf K)[c]? = buf[c]? := by
  induction K with
  | zero => rfl
  | succ k ih =>
    have hne : k ≠ c := by omega
    simp only [drawsInto]
    rw [List.getElem?_set_ne hne]
    exact ih (by omega)

theorem drawsInto_getElem?_lt (seed : Int) (buf : List Int) (K c : Nat) (h : c < K)
    (hK : K ≤ buf.length) :
    (drawsInto seed buf K)[c]? = some (longToInt (nthDraw seed c)) := by
  induction K with
  | zero => omega
  | succ k ih =>
    simp only [drawsInto]
    rcases Nat.lt_or_ge c k with hlt | hge
    · rw [List.getElem?_set_ne (by omega)]
      exact ih hlt (by omega)
    · have hck : c = k := by omega
      subst hck
      rw [List.getElem?_set_self (by rw [drawsInto_length]; omega)]

theorem cellStep_runAfter (seed : Int) (buf : List Int) (N i j : Int) (K : Nat)
    (hidx : i * N + j = (K : Int)) (hK : K < buf.length) :
    cellStep N i j (runAfter seed buf K) = runAfter seed buf (K + 1) := by
  have hcond : 0 ≤ (K : Int) ∧ (K : Int) < ((drawsInto seed buf K).length : Int) := by
    rw [drawsInto_length]
    omega
  simp only [cellStep, runAfter, hidx, hcond, and_self, if_true, Int.toNat_ofNat,
    List.range_succ]
  rfl

theorem jobLoop_runAfter (seed : Int) (buf : List Int) (N : Int) (n i : Nat) (hN : N = (n : Int))
    (h : (i + 1) * n ≤ buf.length) :
    jobLoop N i (runAfter seed buf (i * n)) = runAfter seed buf ((i + 1) * n) := by
  have key : ∀ c : Nat, c ≤ n →
      (List.range c).foldl (fun (t : Run) (j : Nat) => cellStep N i j t)
        (runAfter seed buf (i * n)) = runAfter seed buf (i * n + c) := by
    intro c
    induction c with
    | zero => intro _; rfl
    | succ k ih =>
      intro hk
      rw [List.range_succ, List.foldl_append, ih (by omega)]
      simp only [List.foldl_cons, List.foldl_nil]
      have hlt : i * n + k < buf.length := by
        have : (i + 1) * n = i * n + n := by ring
        omega
      exact cellStep_runAfter seed buf N i k (i * n + k) (by rw [hN]; push_cast; ring) hlt
  unfold jobLoop
  rw [hN, Int.toNat_ofNat, ← hN, key n le_rfl]
  congr 1
  ring

theorem machineLoop_runAfter (seed : Int) (buf : List Int) (N M : Int) (n m : Nat)
    (hN : N = (n : Int)) (hM : M = (m : Int)) (h : m * n ≤ buf.length) :
    machineLoop N M (runAfter seed buf 0) = runAfter seed buf (m * n) := by
  have key : ∀ r : Nat, r ≤ m →
      (List.range r).foldl (fun (t : Run) (i : Nat) => jobLoop N i t)
        (runAfter seed buf 0) = runAfter seed buf (r * n) := by
    intro r
    induction r with
    | zero => intro _; simp
    | succ k ih =>
      intro hk
      rw [List.range_succ, List.foldl_append, ih (by omega)]
      simp only [List.foldl_cons, List.foldl_nil]
      have hle : (k + 1) * n ≤ buf.length :=
        le_trans (Nat.mul_le_mul_right n hk) h
      exact jobLoop_runAfter seed buf N n k hN hle
  unfold machineLoop
  rw [hM, Int.toNat_ofNat]
  exact key m le_rfl

theorem ite_pos_both (c : Prop) [Decidable c] (a b : Int) (ha : 0 < a) (hb : 0 < b) :
    0 < (if c then a else b) := by
  split <;> assumption

theorem nb_jobs_pos (id : Int) : 0 < taillard_get_nb_jobs id := by
  unfold taillard_get_nb_jobs
  repeat' apply ite_pos_both
  all_goals decide

theorem nb_machines_pos (id : Int) : 0 < taillard_get_nb_machines id := by
  unfold taillard_get_nb_machines
  repeat' apply ite_pos_both
  all_goals decide

theorem instanceCells_eq (id : Int) :
    instanceCells id
      = (taillard_get_nb_machines id).toNat * (taillard_get_nb_jobs id).toNat := by
  have hN := nb_jobs_pos id
  have hM := nb_machines_pos id
  have h1 := Int.toNat_of_nonneg (mul_nonneg hM.le hN.le)
  have h2 := Int.toNat_of_nonneg hM.le
  have h3 := Int.toNat_of_nonneg hN.le
  have h : (((taillard_get_nb_machines id * taillard_get_nb_jobs id).toNat : Nat) : Int)
      = (((taillard_get_nb_machines id).toNat * (taillard_get_nb_jobs id).toNat : Nat) : Int) := by
    push_cast
    rw [h1, h2, h3]
  unfold instanceCells
  exact_mod_cast h

theorem seedRead_of_seedAt (beyond : Int → Int) (i seed : Int) (h : seedAt i = some seed) :
    seedRead beyond i = seed := by
  unfold seedRead
  rw [h]

/-- The whole run in closed form, for any `id`, on the block passed by the caller or on a
fresh one of `N * M` cells. -/
theorem processing_times_run_read (beyond : Int → Int) (ptm : Option (List Int)) (id : Int)
    (hbuf : ∀ buf, ptm = some buf → instanceCells id ≤ buf.length) :
    taillard_get_processing_times beyond ptm id
      = runAfter (seedRead beyond (id - 1)) (ptm.getD (List.replicate (instanceCells id) 0))
          (instanceCells id) := by
  have hN := nb_jobs_pos id
  have hM := nb_machines_pos id
  have hNn : taillard_get_nb_jobs id = ((taillard_get_nb_jobs id).toNat : Int) :=
    (Int.toNat_of_nonneg hN.le).symm
  have hMm : taillard_get_nb_machines id = ((taillard_get_nb_machines id).toNat : Int) :=
    (Int.toNat_of_nonneg hM.le).symm
  have hcells := instanceCells_eq id
  unfold taillard_get_processing_times
  cases ptm with
  | none =>
    have hlen : instanceCells id ≤ (List.replicate (instanceCells id) (0 : Int)).length := by
      simp
    have hrep : (taillard_get_nb_jobs id * taillard_get_nb_machines id).toNat
        = instanceCells id := by
      unfold instanceCells
      rw [mul_comm]
    simp only [hrep, Option.getD_none]
    rw [hcells] at hlen ⊢
    exact machineLoop_runAfter _ _ _ _ _ _ hNn hMm hlen
  | some buf =>
    have hlen := hbuf buf rfl
    simp only [Option.getD_some]
    rw [hcells] at hlen ⊢
    exact machineLoop_runAfter _ buf _ _ _ _ hNn hMm hlen

/-- The whole run in closed form for an `id` whose seed is in the table. -/
theorem processing_times_run (beyond : Int → Int) (ptm : Option (List Int)) (id seed : Int)
    (hseed : seedAt (id - 1) = some seed)
    (hbuf : ∀ buf, ptm = some buf → instanceCells id ≤ buf.length) :
    taillard_get_processing_times beyond ptm id
      = runAfter seed (ptm.getD (List.replicate (instanceCells id) 0)) (instanceCells id) := by
  rw [processing_times_run_read beyond ptm id hbuf, seedRead_of_seedAt beyond _ seed hseed]

/-! ## The seed table -/

theorem tableBelow_true : tableBelow = true := by decide!

theorem cursorAfter_succ_left (seed : Int) (n : Nat) :
    cursorAfter seed (n + 1) = cursorAfter (nextSeed seed) n := by
  induction n with
  | zero => rfl
  | succ k ih =>
    show nextSeed (cursorAfter seed (k + 1)) = nextSeed (cursorAfter (nextSeed seed) k)
    rw [ih]

theorem streamBelow_sound (n x : Nat) (hx : x < 2147483647)
    (h : streamBelow 2147483584 n x = true) :
    ∀ k < n, cursorAfter (x : Int) (k + 1) < 2147483584 := by
  induction n generalizing x with
  | zero => intro k hk; omega
  | succ m ih =>
    unfold streamBelow at h
    intro k hk
    rw [cursorAfter_succ_left, nextSeed_natCast x hx]
    cases hy : lcgNat x with
    | zero => rw [hy] at h; simp at h
    | succ y =>
      rw [hy] at h
      simp only [Bool.and_eq_true, Nat.blt_eq] at h
      cases k with
      | zero =>
        show ((y + 1 : Nat) : Int) < 2147483584
        omega
      | succ k2 => exact ih (y + 1) (by omega) h.2 k2 (by omega)

/-- What `tableBelow` records about one instance. -/
theorem table_entry (id : Int) (h1 : 1 ≤ id) (h120 : id ≤ 120) :
    ∃ seed : Int, seedAt (id - 1) = some seed ∧ 0 ≤ seed ∧ seed < 2147483647 ∧
      ∀ k < instanceCells id, cursorAfter seed (k + 1) < 2147483584 := by
  have hall := tableBelow_true
  unfold tableBelow at hall
  rw [List.all_eq_true] at hall
  have hi : (id - 1).toNat ∈ List.range 120 := by
    rw [List.mem_range]
    omega
  have hid : (((id - 1).toNat : Nat) : Int) + 1 = id := by omega
  have h := hall _ hi
  rw [hid] at h
  cases hs : time_seeds[(id - 1).toNat]? with
  | none => rw [hs] at h; simp at h
  | some s =>
    rw [hs] at h
    simp only [Bool.and_eq_true, decide_eq_true_eq] at h
    refine ⟨s, ?_, h.1.1, h.1.2, ?_⟩
    · unfold seedAt
      rw [if_pos (by omega), hs]
    · have hs0 : ((s.toNat : Nat) : Int) = s := Int.toNat_of_nonneg h.1.1
      have := streamBelow_sound (instanceCells id) s.toNat (by omega) h.2
      rw [hs0] at this
      exact this

/-! ## Properties of the generated instances -/

/-- C3: for `1 ≤ id ≤ 120`, `taillard_get_nb_jobs id` is 20 on 1..30, 50 on 31..60, 100 on
61..90, 200 on 91..110 and 500 above 110; its values at 1, 30, 31 and 120 are 20, 20, 50
and 500. -/
theorem nb_jobs_buckets (id : Int) (h1 : 1 ≤ id) (h120 : id ≤ 120) :
    (id ≤ 30 → taillard_get_nb_jobs id = 20) ∧
    (31 ≤ id → id ≤ 60 → taillard_get_nb_jobs id = 50) ∧
    (61 ≤ id → id ≤ 90 → taillard_get_nb_jobs id = 100) ∧
    (91 ≤ id → id ≤ 110 → taillard_get_nb_jobs id = 200) ∧
    (110 < id → taillard_get_nb_jobs id = 500) ∧
    taillard_get_nb_jobs 1 = 20 ∧ taillard_get_nb_jobs 30 = 20 ∧
    taillard_get_nb_jobs 31 = 50 ∧ taillard_get_nb_jobs 120 = 500 := by
  have _ := h1
  have _ := h120
  refine ⟨?_, ?_, ?_, ?_, ?_, by decide, by decide, by decide, by decide⟩
  all_goals
    intros
    unfold taillard_get_nb_jobs
    repeat' split
    all_goals omega

theorem nb_jobs_buckets_witness :
    (1 : Int) ≤ 45 ∧ (45 : Int) ≤ 120 ∧ taillard_get_nb_jobs 45 = 50 :=
  ⟨by decide, by decide,
    (nb_jobs_buckets 45 (by decide) (by decide)).2.1 (by decide) (by decide)⟩

/-- C4: for every integer `id`, `taillard_get_nb_machines id` is the value of the first rung
of the ladder `id>110 → 20, id>100 → 20, id>90 → 10, id>80 → 20, id>70 → 10, id>60 → 5,
id>50 → 20, id>40 → 10, id>30 → 5, id>20 → 20, id>10 → 10`, else 5; its values at 1, 11, 21
and 111 are 5, 10, 20 and 20. -/
theorem nb_machines_first_rung :
    (∀ id : Int, taillard_get_nb_machines id = firstRung id machineLadder) ∧
    taillard_get_nb_machines 1 = 5 ∧ taillard_get_nb_machines 11 = 10 ∧
    taillard_get_nb_machines 21 = 20 ∧ taillard_get_nb_machines 111 = 20 := by
  refine ⟨?_, by decide, by decide, by decide, by decide⟩
  intro id
  rfl

theorem cell_index_lt (i j N M : Int) (hi0 : 0 ≤ i) (hi : i < M) (hj0 : 0 ≤ j) (hj : j < N) :
    0 ≤ i * N + j ∧ i * N + j < M * N := by
  have h1 : 0 ≤ i * N := mul_nonneg hi0 (by omega)
  have h2 : (i + 1) * N ≤ M * N := mul_le_mul_of_nonneg_right (by omega) (by omega)
  constructor
  · omega
  · have : (i + 1) * N = i * N + N := by ring
    omega

/-- C1: for `1 ≤ id ≤ 120`, with `N` jobs and `M` machines, the call stops without a fault
and cell `i * N + j` (`0 ≤ i < M`, `0 ≤ j < N`) of the block it filled holds the value returned
by call number `i * N + j + 1` of the successive calls `unif(cursor, 1, 99)` that start from
`time_seeds[id - 1]`: one draw per cell, rows of machines outside, jobs inside. -/
theorem cells_follow_stream (id : Int) (h1 : 1 ≤ id) (h120 : id ≤ 120)
    (beyond : Int → Int) (ptm : Option (List Int))
    (hbuf : ∀ buf, ptm = some buf →
      taillard_get_nb_machines id * taillard_get_nb_jobs id ≤ (buf.length : Int)) :
    ∃ (seed : Int) (out : List Int),
      seedAt (id - 1) = some seed ∧
      (taillard_get_processing_times beyond ptm id).fault = none ∧
      (taillard_get_processing_times beyond ptm id).ptm = some out ∧
      ∀ i j : Int, 0 ≤ i → i < taillard_get_nb_machines id →
        0 ≤ j → j < taillard_get_nb_jobs id →
        out[(i * taillard_get_nb_jobs id + j).toNat]?
          = some (nthDraw seed (i * taillard_get_nb_jobs id + j).toNat) := by
  obtain ⟨seed, hseed, h0, hm, _⟩ := table_entry id h1 h120
  have hbuf2 : ∀ buf, ptm = some buf → instanceCells id ≤ buf.length := by
    intro buf hb
    have := hbuf buf hb
    unfold instanceCells
    omega
  have hrun := processing_times_run beyond ptm id seed hseed hbuf2
  refine ⟨seed, drawsInto seed (ptm.getD (List.replicate (instanceCells id) 0))
    (instanceCells id), hseed, ?_, ?_, ?_⟩
  · rw [hrun]; rfl
  · rw [hrun]; rfl
  · intro i j hi0 hi hj0 hj
    obtain ⟨hc0, hc⟩ := cell_index_lt i j _ _ hi0 hi hj0 hj
    have hlt : (i * taillard_get_nb_jobs id + j).toNat < instanceCells id := by
      unfold instanceCells
      omega
    have hlen : instanceCells id ≤ (ptm.getD (List.replicate (instanceCells id) 0)).length := by
      cases ptm with
      | none => simp
      | some buf => exact hbuf2 buf rfl
    rw [drawsInto_getElem?_lt seed _ _ _ hlt hlen]
    have hb := nthDraw_bounds seed h0 hm (i * taillard_get_nb_jobs id + j).toNat
    rw [longToInt_small _ hb.1 hb.2]

theorem cells_follow_stream_witness :
    ∃ (seed : Int) (out : List Int),
      seedAt (1 - 1) = some seed ∧
      (taillard_get_processing_times (fun _ => 0) (some (List.replicate 100 0)) 1).fault = none ∧
      (taillard_get_processing_times (fun _ => 0) (some (List.replicate 100 0)) 1).ptm = some out ∧
      ∀ i j : Int, 0 ≤ i → i < taillard_get_nb_machines 1 →
        0 ≤ j → j < taillard_get_nb_jobs 1 →
        out[(i * taillard_get_nb_jobs 1 + j).toNat]?
          = some (nthDraw seed (i * taillard_get_nb_jobs 1 + j).toNat) :=
  cells_follow_stream 1 (by decide) (by decide) (fun _ => 0) (some (List.replicate 100 0))
    (by intro buf hb; cases hb; decide)

/-- C2: for `1 ≤ id ≤ 120`, every one of the `M * N` cells the call fills holds a value in
`[1, 99]` (`float` conversion rounding to nearest, ties to even, on 24 significant bits). -/
theorem cells_in_range (id : Int) (h1 : 1 ≤ id) (h120 : id ≤ 120)
    (beyond : Int → Int) (ptm : Option (List Int))
    (hbuf : ∀ buf, ptm = some buf →
      taillard_get_nb_machines id * taillard_get_nb_jobs id ≤ (buf.length : Int)) :
    ∃ out : List Int,
      (taillard_get_processing_times beyond ptm id).ptm = some out ∧
      ∀ c : Nat, (c : Int) < taillard_get_nb_machines id * taillard_get_nb_jobs id →
        ∃ v : Int, out[c]? = some v ∧ 1 ≤ v ∧ v ≤ 99 := by
  obtain ⟨seed, hseed, h0, hm, hbelow⟩ := table_entry id h1 h120
  have hbuf2 : ∀ buf, ptm = some buf → instanceCells id ≤ buf.length := by
    intro buf hb
    have := hbuf buf hb
    unfold instanceCells
    omega
  have hrun := processing_times_run beyond ptm id seed hseed hbuf2
  refine ⟨drawsInto seed (ptm.getD (List.replicate (instanceCells id) 0))
    (instanceCells id), ?_, ?_⟩
  · rw [hrun]; rfl
  · intro c hc
    have hlt : c < instanceCells id := by
      unfold instanceCells
      omega
    have hlen : instanceCells id ≤ (ptm.getD (List.replicate (instanceCells id) 0)).length := by
      cases ptm with
      | none => simp
      | some buf => exact hbuf2 buf rfl
    have hcur := cursorAfter_range seed h0 hm (c + 1)
    have hb : 1 ≤ nthDraw seed c ∧ nthDraw seed c ≤ 99 :=
      (unif_fst_bounds (cursorAfter seed c) hcur.1).2 (hbelow c hlt)
    refine ⟨nthDraw seed c, ?_, hb.1, hb.2⟩
    rw [drawsInto_getElem?_lt seed _ _ _ hlt hlen, longToInt_small _ hb.1 (by omega)]

theorem cells_in_range_witness :
    ∃ out : List Int,
      (taillard_get_processing_times (fun _ => 0) (some (List.replicate 10000 0)) 120).ptm = some out ∧
      ∀ c : Nat, (c : Int) < taillard_get_nb_machines 120 * taillard_get_nb_jobs 120 →
        ∃ v : Int, out[c]? = some v ∧ 1 ≤ v ∧ v ≤ 99 :=
  cells_in_range 120 (by decide) (by decide) (fun _ => 0) (some (List.replicate 10000 0))
    (by intro buf hb; cases hb; rw [List.length_replicate]; decide)

theorem range_mul_eq_flatMap (m n : Nat) :
    List.range (m * n)
      = (List.range m).flatMap fun i => (List.range n).map fun j => i * n + j := by
  induction m with
  | zero => simp
  | succ k ih =>
    rw [List.range_succ, List.flatMap_append, ← ih, List.flatMap_singleton,
      show (k + 1) * n = k * n + n by ring, List.range_add]

/-- C5: for `1 ≤ id ≤ 120` and a caller buffer of at least `M * N` cells, the call stores to
the indices `0 .. M*N-1` and to nothing else, each once, row `i` covering `i*N .. i*N+N-1`;
the buffer keeps its length and every cell at an index `≥ M * N` keeps its value. -/
theorem stores_exactly_matrix (id : Int) (h1 : 1 ≤ id) (h120 : id ≤ 120)
    (beyond : Int → Int) (buf : List Int)
    (hlen : taillard_get_nb_machines id * taillard_get_nb_jobs id ≤ (buf.length : Int)) :
    (taillard_get_processing_times beyond (some buf) id).fault = none ∧
    (taillard_get_processing_times beyond (some buf) id).stores
      = List.range (taillard_get_nb_machines id * taillard_get_nb_jobs id).toNat ∧
    (taillard_get_processing_times beyond (some buf) id).stores
      = ((List.range (taillard_get_nb_machines id).toNat).flatMap fun i =>
          (List.range (taillard_get_nb_jobs id).toNat).map fun j =>
            i * (taillard_get_nb_jobs id).toNat + j) ∧
    (taillard_get_processing_times beyond (some buf) id).stores.Nodup ∧
    ∃ out : List Int,
      (taillard_get_processing_times beyond (some buf) id).ptm = some out ∧
      out.length = buf.length ∧
      ∀ c : Nat, taillard_get_nb_machines id * taillard_get_nb_jobs id ≤ (c : Int) →
        out[c]? = buf[c]? := by
  obtain ⟨seed, hseed, _, _, _⟩ := table_entry id h1 h120
  have hbuf2 : ∀ b, some buf = some b → instanceCells id ≤ b.length := by
    intro b hb
    cases hb
    unfold instanceCells
    omega
  have hrun := processing_times_run beyond (some buf) id seed hseed hbuf2
  have hstores : (taillard_get_processing_times beyond (some buf) id).stores
      = List.range (instanceCells id) := by rw [hrun]; rfl
  refine ⟨by rw [hrun]; rfl, hstores, ?_, ?_, drawsInto seed buf (instanceCells id),
    by rw [hrun]; rfl, drawsInto_length seed buf _, ?_⟩
  · rw [hstores, instanceCells_eq, range_mul_eq_flatMap]
  · rw [hstores]
    exact List.nodup_range _
  · intro c hc
    apply drawsInto_getElem?_ge
    unfold instanceCells
    omega

theorem stores_exactly_matrix_witness :
    (taillard_get_processing_times (fun _ => 0) (some (List.replicate 120 7)) 1).fault = none ∧
    (taillard_get_processing_times (fun _ => 0) (some (List.replicate 120 7)) 1).stores
      = List.range (taillard_get_nb_machines 1 * taillard_get_nb_jobs 1).toNat ∧
    (taillard_get_processing_times (fun _ => 0) (some (List.replicate 120 7)) 1).stores
      = ((List.range (taillard_get_nb_machines 1).toNat).flatMap fun i =>
          (List.range (taillard_get_nb_jobs 1).toNat).map fun j =>
            i * (taillard_get_nb_jobs 1).toNat + j) ∧
    (taillard_get_processing_times (fun _ => 0) (some (List.replicate 120 7)) 1).stores.Nodup ∧
    ∃ out : List Int,
      (taillard_get_processing_times (fun _ => 0) (some (List.replicate 120 7)) 1).ptm = some out ∧
      out.length = (List.replicate 120 (7 : Int)).length ∧
      ∀ c : Nat, taillard_get_nb_machines 1 * taillard_get_nb_jobs 1 ≤ (c : Int) →
        out[c]? = (List.replicate 120 (7 : Int))[c]? :=
  stores_exactly_matrix 1 (by decide) (by decide) (fun _ => 0) (List.replicate 120 7)
    (by decide)

theorem draw_eval (seed next : Int) (v : Int) (hnext : nextSeed seed = next) (h0 : 0 ≤ next)
    (hv : 1 + ((99 * roundNat 24 next.toNat / 2 ^ 31 : Nat) : Int) = v) :
    (unif seed 1 99).1 = v := by
  rw [unif_fst seed (by rw [hnext]; exact h0), hnext, hv]

/-- C6: instance 1 uses the seed 873654221 (`time_seeds[0]`); the first three values drawn by
successive calls `unif(cursor, 1, 99)` from it are 54, 83, 15, and they are the first three
cells of the matrix generated for `id = 1`. -/
theorem ta001_first_cells :
    time_seeds[0]? = some 873654221 ∧ seedAt (1 - 1) = some 873654221 ∧
    nthDraw 873654221 0 = 54 ∧ nthDraw 873654221 1 = 83 ∧ nthDraw 873654221 2 = 15 ∧
    ∀ (beyond : Int → Int) (ptm : Option (List Int)),
      (∀ buf, ptm = some buf → 100 ≤ buf.length) →
      ∃ out : List Int, (taillard_get_processing_times beyond ptm 1).ptm = some out ∧
        out[0]? = some 54 ∧ out[1]? = some 83 ∧ out[2]? = some 15 := by
  have c1 : cursorAfter 873654221 1 = 1160797808 := by
    show nextSeed 873654221 = 1160797808
    decide!
  have c2 : cursorAfter 873654221 2 = 1787309708 := by
    show nextSeed (cursorAfter 873654221 1) = 1787309708
    rw [c1]
    decide!
  have c3 : nextSeed (cursorAfter 873654221 2) = 313008120 := by
    rw [c2]
    decide!
  have d0 : nthDraw 873654221 0 = 54 :=
    draw_eval 873654221 1160797808 54 c1 (by decide) (by decide!)
  have d1 : nthDraw 873654221 1 = 83 :=
    draw_eval (cursorAfter 873654221 1) 1787309708 83 c2 (by decide) (by decide!)
  have d2 : nthDraw 873654221 2 = 15 :=
    draw_eval (cursorAfter 873654221 2) 313008120 15 c3 (by decide) (by decide!)
  refine ⟨by decide, by decide, d0, d1, d2, ?_⟩
  intro beyond ptm hbuf
  have hseed : seedAt (1 - 1) = some 873654221 := by decide
  have hcells : instanceCells 1 = 100 := by decide
  have hrun := processing_times_run beyond ptm 1 873654221 hseed (by rw [hcells]; exact hbuf)
  rw [hcells] at hrun
  have hlen : 100 ≤ (ptm.getD (List.replicate 100 0)).length := by
    cases ptm with
    | none => simp
    | some buf => exact hbuf buf rfl
  refine ⟨drawsInto 873654221 (ptm.getD (List.replicate 100 0)) 100, by rw [hrun]; rfl,
    ?_, ?_, ?_⟩
  · rw [drawsInto_getElem?_lt _ _ _ _ (by norm_num) hlen, d0]; rfl
  · rw [drawsInto_getElem?_lt _ _ _ _ (by norm_num) hlen, d1]; rfl
  · rw [drawsInto_getElem?_lt _ _ _ _ (by norm_num) hlen, d2]; rfl

theorem ta001_first_cells_witness :
    ∃ out : List Int,
      (taillard_get_processing_times (fun _ => 0) (some (List.replicate 100 0)) 1).ptm = some out ∧
      out[0]? = some 54 ∧ out[1]? = some 83 ∧ out[2]? = some 15 :=
  ta001_first_cells.2.2.2.2.2 (fun _ => 0) (some (List.replicate 100 0))
    (by intro buf hb; cases hb; rw [List.length_replicate])

/-- C7: `taillard_get_instance_data` sets `*N` to `taillard_get_nb_jobs id`, `*M` to
`taillard_get_nb_machines id`, and runs `taillard_get_processing_times beyond ptm id`, nothing
more: the buffer and the outcome are those of that call alone, for every `id` and buffer. -/
theorem instance_data_composes (beyond : Int → Int) (ptm : Option (List Int)) (id : Int) :
    (taillard_get_instance_data beyond ptm id).N = taillard_get_nb_jobs id ∧
    (taillard_get_instance_data beyond ptm id).M = taillard_get_nb_machines id ∧
    (taillard_get_instance_data beyond ptm id).run
      = taillard_get_processing_times beyond ptm id :=
  ⟨rfl, rfl, rfl⟩

/-- C9: for `1 ≤ id ≤ 120`, two calls on any two buffers of at least `M * N` cells leave the
same `M * N` generated cells: the matrix depends on `id` alone. -/
theorem matrix_depends_on_id_only (id : Int) (h1 : 1 ≤ id) (h120 : id ≤ 120)
    (beyond : Int → Int) (buf1 buf2 : List Int)
    (hlen1 : taillard_get_nb_machines id * taillard_get_nb_jobs id ≤ (buf1.length : Int))
    (hlen2 : taillard_get_nb_machines id * taillard_get_nb_jobs id ≤ (buf2.length : Int)) :
    ∃ out1 out2 : List Int,
      (taillard_get_processing_times beyond (some buf1) id).ptm = some out1 ∧
      (taillard_get_processing_times beyond (some buf2) id).ptm = some out2 ∧
      out1.take (taillard_get_nb_machines id * taillard_get_nb_jobs id).toNat
        = out2.take (taillard_get_nb_machines id * taillard_get_nb_jobs id).toNat ∧
      (out1.take (taillard_get_nb_machines id * taillard_get_nb_jobs id).toNat).length
        = (taillard_get_nb_machines id * taillard_get_nb_jobs id).toNat := by
  obtain ⟨seed, hseed, _, _, _⟩ := table_entry id h1 h120
  have hb1 : instanceCells id ≤ buf1.length := by unfold instanceCells; omega
  have hb2 : instanceCells id ≤ buf2.length := by unfold instanceCells; omega
  have hrun1 := processing_times_run beyond (some buf1) id seed hseed
    (by intro b hb; cases hb; exact hb1)
  have hrun2 := processing_times_run beyond (some buf2) id seed hseed
    (by intro b hb; cases hb; exact hb2)
  refine ⟨drawsInto seed buf1 (instanceCells id), drawsInto seed buf2 (instanceCells id),
    by rw [hrun1]; rfl, by rw [hrun2]; rfl, ?_, ?_⟩
  · show List.take (instanceCells id) _ = List.take (instanceCells id) _
    apply List.ext_getElem?
    intro c
    rw [List.getElem?_take, List.getElem?_take]
    split
    · next hc =>
      rw [drawsInto_getElem?_lt seed buf1 _ c hc hb1, drawsInto_getElem?_lt seed buf2 _ c hc hb2]
    · rfl
  · show (List.take (instanceCells id) _).length = instanceCells id
    rw [List.length_take, drawsInto_length]
    omega

theorem matrix_depends_on_id_only_witness :
    ∃ out1 out2 : List Int,
      (taillard_get_processing_times (fun _ => 0) (some (List.replicate 100 0)) 1).ptm = some out1 ∧
      (taillard_get_processing_times (fun _ => 0) (some (List.replicate 130 9)) 1).ptm = some out2 ∧
      out1.take (taillard_get_nb_machines 1 * taillard_get_nb_jobs 1).toNat
        = out2.take (taillard_get_nb_machines 1 * taillard_get_nb_jobs 1).toNat ∧
      (out1.take (taillard_get_nb_machines 1 * taillard_get_nb_jobs 1).toNat).length
        = (taillard_get_nb_machines 1 * taillard_get_nb_jobs 1).toNat :=
  matrix_depends_on_id_only 1 (by decide) (by decide) (fun _ => 0) (List.replicate 100 0)
    (List.replicate 130 9) (by rw [List.length_replicate]; decide)
    (by rw [List.length_replicate]; decide)

theorem sizes_by_block :
    ∀ i : Nat, i < 120 → ∀ k : Nat, k < 12 →
      (some (instanceSize ((i : Int) + 1)) = configurations[k]? ↔ 10 * k ≤ i ∧ i < 10 * k + 10) := by
  decide!

/-- C10: over the ids 1..120 the pair (jobs, machines) takes exactly the 12 distinct values
(20,5), (20,10), (20,20), (50,5), (50,10), (50,20), (100,5), (100,10), (100,20), (200,10),
(200,20), (500,20), the `k`-th of them on exactly the ten ids `10(k-1)+1 .. 10k`. -/
theorem twelve_configurations :
    configurations.length = 12 ∧ configurations.Nodup ∧
    ((List.range 120).map fun i => instanceSize ((i : Int) + 1)).dedup = configurations ∧
    ∀ (id : Int) (k : Nat), 1 ≤ id → id ≤ 120 → 1 ≤ k → k ≤ 12 →
      (some (instanceSize id) = configurations[k - 1]? ↔
        10 * ((k : Int) - 1) + 1 ≤ id ∧ id ≤ 10 * (k : Int)) := by
  refine ⟨by decide, by decide, by decide!, ?_⟩
  intro id k h1 h120 hk1 hk12
  have h := sizes_by_block (id - 1).toNat (by omega) (k - 1) (by omega)
  have hid : (((id - 1).toNat : Nat) : Int) + 1 = id := by omega
  rw [hid] at h
  rw [h]
  omega

theorem twelve_configurations_witness :
    (some (instanceSize 57) = configurations[6 - 1]? ↔
      10 * (((6 : Nat) : Int) - 1) + 1 ≤ 57 ∧ (57 : Int) ≤ 10 * ((6 : Nat) : Int)) :=
  twelve_configurations.2.2.2 57 6 (by decide) (by decide) (by decide) (by decide)

/-! ## Ids outside the catalogue -/

theorem ite_eq_both (c : Prop) [Decidable c] (a b v : Int) (ha : c → a = v) (hb : ¬c → b = v) :
    (if c then a else b) = v := by
  split
  · exact ha ‹_›
  · exact hb ‹_›

theorem nb_machines_low (id : Int) (h : id ≤ 0) : taillard_get_nb_machines id = 5 := by
  unfold taillard_get_nb_machines
  repeat' apply ite_eq_both
  all_goals intros
  all_goals omega

theorem nb_machines_high (id : Int) (h : 110 < id) : taillard_get_nb_machines id = 20 := by
  unfold taillard_get_nb_machines
  rw [if_pos h]

theorem nb_jobs_low (id : Int) (h : id ≤ 30) : taillard_get_nb_jobs id = 20 := by
  unfold taillard_get_nb_jobs
  repeat' apply ite_eq_both
  all_goals intros
  all_goals omega

theorem nb_jobs_high (id : Int) (h : 110 < id) : taillard_get_nb_jobs id = 500 := by
  unfold taillard_get_nb_jobs
  rw [if_pos h]

/-- C11, as stated, fails: `taillard_get_nb_machines 121` is 20, not 5. -/
theorem nb_machines_above_range_not_smallest : taillard_get_nb_machines 121 ≠ 5 := by decide

/-- C11, amended: for `id ≤ 0`, `taillard_get_nb_machines id` falls through every rung and
returns 5; for `id > 120` the first rung `id > 110` matches and it returns 20. -/
theorem nb_machines_outside_range (id : Int) :
    (id ≤ 0 → taillard_get_nb_machines id = 5) ∧
    (120 < id → taillard_get_nb_machines id = 20) :=
  ⟨nb_machines_low id, fun h => nb_machines_high id (by omega)⟩

theorem nb_machines_outside_range_witness :
    taillard_get_nb_machines (-3) = 5 ∧ taillard_get_nb_machines 500 = 20 :=
  ⟨(nb_machines_outside_range (-3)).1 (by decide),
    (nb_machines_outside_range 500).2 (by decide)⟩

/-- C12, as stated, fails: `taillard_get_nb_jobs 121` is 500, not 20. -/
theorem nb_jobs_above_range_not_last : taillard_get_nb_jobs 121 ≠ 20 := by decide

/-- C12, amended: for `id ≤ 0`, `taillard_get_nb_jobs id` reaches the final unconditional
branch and returns 20; for `id > 120` the first test `id > 110` holds and it returns 500. -/
theorem nb_jobs_outside_range (id : Int) :
    (id ≤ 0 → taillard_get_nb_jobs id = 20) ∧
    (120 < id → taillard_get_nb_jobs id = 500) :=
  ⟨fun h => nb_jobs_low id (by omega), fun h => nb_jobs_high id (by omega)⟩

theorem nb_jobs_outside_range_witness :
    taillard_get_nb_jobs 0 = 20 ∧ taillard_get_nb_jobs 121 = 500 :=
  ⟨(nb_jobs_outside_range 0).1 (by decide), (nb_jobs_outside_range 121).2 (by decide)⟩

/-! ## The state update -/

theorem nextSeed_eq_emod (x : Int) (h1 : 0 ≤ x) (hm : x < 2147483647) :
    nextSeed x = 16807 * x % 2147483647 := by
  unfold nextSeed
  simp only
  rw [Int.tdiv_eq_ediv h1 (by norm_num), Int.tmod_eq_emod h1 (by norm_num)]
  split_ifs <;> omega

/-- C13: for `1 ≤ x ≤ 2147483646` the state `unif` leaves in `*seed`, computed as
`k = x div 127773`, `x' = 16807 * (x mod 127773) - k * 2836`, plus `2147483647` when
negative, is `(16807 * x) mod 2147483647`. -/
theorem unif_state_is_lcg (x low high : Int) (h1 : 1 ≤ x) (hm : x ≤ 2147483646) :
    (unif x low high).2 = 16807 * x % 2147483647 ∧
    (unif x low high).2 =
      (if 16807 * Int.tmod x 127773 - Int.tdiv x 127773 * 2836 < 0
        then 16807 * Int.tmod x 127773 - Int.tdiv x 127773 * 2836 + 2147483647
        else 16807 * Int.tmod x 127773 - Int.tdiv x 127773 * 2836) := by
  refine ⟨?_, rfl⟩
  rw [unif_snd]
  exact nextSeed_eq_emod x (by omega) (by omega)

theorem unif_state_is_lcg_witness :
    (unif 873654221 1 99).2 = 16807 * 873654221 % 2147483647 :=
  (unif_state_is_lcg 873654221 1 99 (by decide) (by decide)).1


theorem lcgNat_pos (n : Nat) (h1 : 1 ≤ n) (hm : n < 2147483647) : 1 ≤ lcgNat n := by
  unfold lcgNat
  by_contra hcon
  have hz : 16807 * n % 2147483647 = 0 := by omega
  have hdvd : 2147483647 ∣ 16807 * n := Nat.dvd_of_mod_eq_zero hz
  have hcop : Nat.Coprime 2147483647 16807 := by decide!
  have hn : 2147483647 ∣ n := hcop.dvd_of_dvd_mul_left hdvd
  have := Nat.le_of_dvd (by omega) hn
  omega

theorem nextSeed_pos (x : Int) (h1 : 1 ≤ x) (hm : x ≤ 2147483646) :
    1 ≤ nextSeed x ∧ nextSeed x ≤ 2147483646 := by
  obtain ⟨n, rfl⟩ := Int.eq_ofNat_of_zero_le (show 0 ≤ x by omega)
  have hpos := lcgNat_pos n (by omega) (by omega)
  have hr := nextSeed_range (n : Int) (by omega) (by omega)
  rw [nextSeed_natCast n (by omega)] at hr ⊢
  omega

theorem cursorAfter_pos (seed : Int) (h1 : 1 ≤ seed) (hm : seed ≤ 2147483646) (n : Nat) :
    1 ≤ cursorAfter seed n ∧ cursorAfter seed n ≤ 2147483646 := by
  induction n with
  | zero => exact ⟨h1, hm⟩
  | succ k ih => exact nextSeed_pos _ ih.1 ih.2

theorem time_seeds_range : ∀ seed ∈ time_seeds, 1 ≤ seed ∧ seed ≤ 2147483646 := by decide!

/-- C16: every seed of `time_seeds` lies in `[1, 2147483646]`, the state update of `unif`
maps `[1, 2147483646]` into itself, and so the cursor after `n` successive draws from a table
seed is never 0, for `1 ≤ n ≤ 10000`. -/
theorem cursor_never_zero :
    (∀ seed ∈ time_seeds, 1 ≤ seed ∧ seed ≤ 2147483646) ∧
    (∀ x : Int, 1 ≤ x → x ≤ 2147483646 →
      1 ≤ (unif x 1 99).2 ∧ (unif x 1 99).2 ≤ 2147483646) ∧
    ∀ seed ∈ time_seeds, ∀ n : Nat, 1 ≤ n → n ≤ 10000 → cursorAfter seed n ≠ 0 := by
  refine ⟨time_seeds_range, fun x h1 hm => nextSeed_pos x h1 hm, ?_⟩
  intro seed hs n _ _
  have hr := time_seeds_range seed hs
  have := cursorAfter_pos seed hr.1 hr.2 n
  omega

theorem cursor_never_zero_witness : cursorAfter 873654221 3 ≠ 0 :=
  cursor_never_zero.2.2 873654221 (by decide) 3 (by decide) (by decide)

/-- C17: for `1 ≤ x ≤ 2147483646` every intermediate integer of the state update of `unif`
fits in a signed 32-bit integer (the quotient `k`, the remainder, both products, their
difference and the corrected state), so the update evaluated with 32-bit wrap-around
arithmetic gives the state of exact integer arithmetic. -/
theorem state_update_fits32 (x : Int) (h1 : 1 ≤ x) (hm : x ≤ 2147483646) :
    fits32 (Int.tdiv x 127773) ∧ fits32 (Int.tmod x 127773) ∧
    fits32 (16807 * Int.tmod x 127773) ∧ fits32 (Int.tdiv x 127773 * 2836) ∧
    fits32 (16807 * Int.tmod x 127773 - Int.tdiv x 127773 * 2836) ∧
    fits32 (nextSeed x) ∧ nextSeed32 x = nextSeed x ∧
    nextSeed x = (unif x 1 99).2 := by
  have h0 : 0 ≤ x := by omega
  have e1 : wrap32 (x / 127773) = x / 127773 := by unfold wrap32; omega
  have e2 : wrap32 (x % 127773) = x % 127773 := by unfold wrap32; omega
  have e3 : wrap32 (16807 * (x % 127773)) = 16807 * (x % 127773) := by unfold wrap32; omega
  have e4 : wrap32 (x / 127773 * 2836) = x / 127773 * 2836 := by unfold wrap32; omega
  have e5 : wrap32 (16807 * (x % 127773) - x / 127773 * 2836)
      = 16807 * (x % 127773) - x / 127773 * 2836 := by unfold wrap32; omega
  have e6 : 16807 * (x % 127773) - x / 127773 * 2836 < 0 →
      wrap32 (16807 * (x % 127773) - x / 127773 * 2836 + 2147483647)
        = 16807 * (x % 127773) - x / 127773 * 2836 + 2147483647 := by
    intro hneg
    unfold wrap32
    omega
  have hnext : nextSeed x = if 16807 * (x % 127773) - x / 127773 * 2836 < 0
      then 16807 * (x % 127773) - x / 127773 * 2836 + 2147483647
      else 16807 * (x % 127773) - x / 127773 * 2836 := by
    unfold nextSeed
    simp only
    rw [Int.tdiv_eq_ediv h0 (by norm_num), Int.tmod_eq_emod h0 (by norm_num)]
  have hnext32 : nextSeed32 x = nextSeed x := by
    rw [hnext]
    unfold nextSeed32
    simp only
    rw [Int.tdiv_eq_ediv h0 (by norm_num), Int.tmod_eq_emod h0 (by norm_num), e1, e2, e3, e4, e5]
    split_ifs with hneg
    · exact e6 hneg
    · rfl
  have hfit : fits32 (nextSeed x) := by
    rw [hnext]
    unfold fits32
    split_ifs <;> omega
  rw [Int.tdiv_eq_ediv h0 (by norm_num), Int.tmod_eq_emod h0 (by norm_num)]
  unfold fits32
  exact ⟨by omega, by omega, by omega, by omega, by omega, hfit, hnext32, rfl⟩

theorem state_update_fits32_witness :
    fits32 (nextSeed 2147483646) ∧ nextSeed32 2147483646 = nextSeed 2147483646 :=
  ⟨(state_update_fits32 2147483646 (by decide) (by decide)).2.2.2.2.2.1,
    (state_update_fits32 2147483646 (by decide) (by decide)).2.2.2.2.2.2.1⟩

/-! ## Shared seeds -/

/-- C20: the seed table is not injective. Ids 14 and 22 share the seed 268827376 and both
have 20 jobs, with 10 and 20 machines; so the 200 cells generated for id 14 are, cell for
cell, the first 200 of the 400 cells generated for id 22. -/
theorem ta014_prefix_of_ta022 :
    ¬ time_seeds.Nodup ∧
    seedAt (14 - 1) = some 268827376 ∧ seedAt (22 - 1) = some 268827376 ∧
    taillard_get_nb_jobs 14 = 20 ∧ taillard_get_nb_jobs 22 = 20 ∧
    taillard_get_nb_machines 14 = 10 ∧ taillard_get_nb_machines 22 = 20 ∧
    ∀ (beyond : Int → Int) (buf14 buf22 : List Int),
      200 ≤ buf14.length → 400 ≤ buf22.length →
      ∃ out14 out22 : List Int,
        (taillard_get_processing_times beyond (some buf14) 14).ptm = some out14 ∧
        (taillard_get_processing_times beyond (some buf22) 22).ptm = some out22 ∧
        out14.take 200 = out22.take 200 ∧ (out14.take 200).length = 200 := by
  have hs14 : seedAt (14 - 1) = some 268827376 := by decide!
  have hs22 : seedAt (22 - 1) = some 268827376 := by decide!
  have hc14 : instanceCells 14 = 200 := by decide!
  have hc22 : instanceCells 22 = 400 := by decide!
  refine ⟨by decide!, hs14, hs22, by decide, by decide, by decide, by decide, ?_⟩
  intro beyond buf14 buf22 h14 h22
  have hrun14 := processing_times_run beyond (some buf14) 14 268827376 hs14
    (by intro b hb; cases hb; rw [hc14]; exact h14)
  have hrun22 := processing_times_run beyond (some buf22) 22 268827376 hs22
    (by intro b hb; cases hb; rw [hc22]; exact h22)
  rw [hc14] at hrun14
  rw [hc22] at hrun22
  refine ⟨drawsInto 268827376 buf14 200, drawsInto 268827376 buf22 400,
    by rw [hrun14]; rfl, by rw [hrun22]; rfl, ?_, ?_⟩
  · apply List.ext_getElem?
    intro c
    rw [List.getElem?_take, List.getElem?_take]
    split
    · next hc =>
      rw [drawsInto_getElem?_lt _ buf14 _ c hc h14,
        drawsInto_getElem?_lt _ buf22 _ c (by omega) h22]
    · rfl
  · rw [List.length_take, drawsInto_length]
    omega

theorem ta014_prefix_of_ta022_witness :
    ∃ out14 out22 : List Int,
      (taillard_get_processing_times (fun _ => 0) (some (List.replicate 200 0)) 14).ptm = some out14 ∧
      (taillard_get_processing_times (fun _ => 0) (some (List.replicate 400 0)) 22).ptm = some out22 ∧
      out14.take 200 = out22.take 200 ∧ (out14.take 200).length = 200 :=
  ta014_prefix_of_ta022.2.2.2.2.2.2.2 (fun _ => 0) (List.replicate 200 0)
    (List.replicate 400 0)
    (by rw [List.length_replicate]) (by rw [List.length_replicate])

/-! ## The value returned by the generator -/

theorem log_two_mul_zpow (r : ℚ) (hr : 0 < r) (z : Int) :
    Int.log 2 (r * (2 : ℚ) ^ z) = Int.log 2 r + z := by
  have h2z : (0 : ℚ) < (2 : ℚ) ^ z := by positivity
  apply log_two_eq_of_bounds
  · rw [zpow_add₀ (by norm_num)]
    apply mul_le_mul_of_nonneg_right _ h2z.le
    exact_mod_cast Int.zpow_log_le_self (b := 2) (by norm_num) hr
  · rw [show Int.log 2 r + z + 1 = (Int.log 2 r + 1) + z by ring, zpow_add₀ (by norm_num)]
    apply mul_lt_mul_of_pos_right _ h2z
    exact_mod_cast Int.lt_zpow_succ_log_self (b := 2) (by norm_num) r

/-- Rounding commutes with scaling by a power of two. -/
theorem roundSig_mul_zpow (p : Nat) (q : ℚ) (z : Int) :
    roundSig p (q * (2 : ℚ) ^ z) = roundSig p q * (2 : ℚ) ^ z := by
  by_cases hq : q = 0
  · simp [hq, roundSig]
  have h2z : (2 : ℚ) ^ z ≠ 0 := by positivity
  have hqz : q * (2 : ℚ) ^ z ≠ 0 := mul_ne_zero hq h2z
  have habs : |q * (2 : ℚ) ^ z| = |q| * (2 : ℚ) ^ z := by
    rw [abs_mul, abs_of_pos (by positivity : (0 : ℚ) < (2 : ℚ) ^ z)]
  have hlog : Int.log 2 |q * (2 : ℚ) ^ z| = Int.log 2 |q| + z := by
    rw [habs]
    exact log_two_mul_zpow |q| (abs_pos.2 hq) z
  unfold roundSig
  rw [if_neg hq, if_neg hqz]
  simp only [hlog]
  have he : Int.log 2 |q| + z - ((p : Int) - 1) = (Int.log 2 |q| - ((p : Int) - 1)) + z := by ring
  rw [he, zpow_add₀ (by norm_num : (2 : ℚ) ≠ 0),
    mul_div_mul_right _ _ h2z, mul_assoc]

theorem roundSig_natCast_mul_zpow (p x : Nat) (hp : 1 ≤ p) (z : Int) :
    roundSig p ((x : ℚ) * (2 : ℚ) ^ z) = (roundNat p x : ℚ) * (2 : ℚ) ^ z := by
  rw [roundSig_mul_zpow, roundSig_natCast p x hp]


theorem toFloat32_ninety_nine : toFloat32 99 = 99 := by
  have h := toFloat32_natCast 99
  have e : roundNat 24 99 = 99 := by decide!
  rw [e] at h
  exact_mod_cast h

theorem log2_eq_thirty (x : Nat) (hlo : 1073741824 ≤ x) (hhi : x < 2147483648) :
    Nat.log2 x = 30 := by
  have hx0 : x ≠ 0 := by omega
  have h1 : 30 ≤ Nat.log2 x := (Nat.le_log2 hx0).2 (by norm_num; omega)
  have h2 : Nat.log2 x < 31 := (Nat.log2_lt hx0).2 (by norm_num; omega)
  omega

theorem roundNat_top (x : Nat) (hlo : 2147483584 ≤ x) (hhi : x < 2147483648) :
    roundNat 24 x = 2147483648 := by
  rw [roundNat_eq, log2_eq_thirty x (by omega) hhi]
  unfold rneShift
  norm_num
  split_ifs <;> omega

/-- The `float` quotient `(float)x' / (float)m` for a new state `x' ≥ 0`. -/
theorem fdiv32_state (x : Nat) :
    fdiv32 (toFloat32 (x : Int)) (toFloat32 2147483647) = (roundNat 24 x : ℚ) / 2147483648 := by
  rw [toFloat32_natCast, toFloat32_modulus, roundNat_eq]
  have hn := rneShift_le 24 x
  have hv : ((rneShift x (Nat.log2 x + 1 - 24) * 2 ^ (Nat.log2 x + 1 - 24) : Nat) : ℚ) / 2147483648
      = ((rneShift x (Nat.log2 x + 1 - 24) : Nat) : ℚ)
        * (2 : ℚ) ^ (((Nat.log2 x + 1 - 24 : Nat) : Int) - 31) := by
    rw [zpow_sub₀ (by norm_num), zpow_natCast]
    push_cast
    norm_num
    ring
  unfold fdiv32
  rw [hv]
  exact roundSig_representable 24 _ _ (by norm_num) hn

/-- C14, at a failing input: from `x = 1510662174` the new state is `2147483584`, whose
`float` conversion is `2 ^ 31 = (float)m`; the normalised value is 1, not below 1, and
`unif(x, 1, 99)` returns 100, outside `[1, 99]`. -/
theorem unif_returns_above_high :
    (1 : Int) ≤ 1510662174 ∧ (1510662174 : Int) ≤ 2147483646 ∧
    (unif 1510662174 1 99).2 = 2147483584 ∧
    fdiv32 (toFloat32 (unif 1510662174 1 99).2) (toFloat32 2147483647) = 1 ∧
    (unif 1510662174 1 99).1 = 100 := by
  have hnext : nextSeed 1510662174 = 2147483584 := by decide!
  have hR : roundNat 24 2147483584 = 2147483648 := by decide!
  refine ⟨by decide, by decide, hnext, ?_, ?_⟩
  · rw [unif_snd, hnext]
    have h := fdiv32_state 2147483584
    rw [hR] at h
    rw [show ((2147483584 : Nat) : Int) = 2147483584 by rfl] at h
    rw [h]
    norm_num
  · exact draw_eval 1510662174 2147483584 100 hnext (by decide) (by decide!)

/-- C15, as stated, fails: from `x = 1265594527` the new state is `21691754`; the `float`
quotient times 99 is `(2 ^ 30 - 1) / 2 ^ 30`, which a `float` product rounds up to 1, giving
2, while `unif` multiplies in `double` and returns 1. -/
theorem unif_differs_from_single :
    (1 : Int) ≤ 1265594527 ∧ (1265594527 : Int) ≤ 2147483646 ∧
    (unif 1265594527 1 99).2 = 21691754 ∧
    (unif 1265594527 1 99).1 = 1 ∧ unifSingle 21691754 = 2 ∧
    (unif 1265594527 1 99).1 ≠ unifSingle (unif 1265594527 1 99).2 := by
  have hnext : nextSeed 1265594527 = 21691754 := by decide!
  have hcode : (unif 1265594527 1 99).1 = 1 :=
    draw_eval 1265594527 21691754 1 hnext (by decide) (by decide!)
  have hsingle : unifSingle 21691754 = 2 := by
    have hdiv := fdiv32_state 21691754
    have hR : roundNat 24 21691754 = 21691754 := by decide!
    rw [hR, show ((21691754 : Nat) : Int) = 21691754 by rfl] at hdiv
    have hprod : ((21691754 : Nat) : ℚ) / 2147483648 * 99
        = ((1073741823 : Nat) : ℚ) * (2 : ℚ) ^ (-30 : Int) := by
      norm_num [zpow_neg]
    have hround : roundNat 24 1073741823 = 1073741824 := by decide!
    unfold unifSingle fmul32
    rw [hdiv, toFloat32_ninety_nine, hprod,
      roundSig_natCast_mul_zpow 24 1073741823 (by norm_num), hround]
    have hone : ((1073741824 : Nat) : ℚ) * (2 : ℚ) ^ (-30 : Int) = 1 := by
      norm_num [zpow_neg]
    rw [hone]
    simp [truncToLong]
  refine ⟨by decide, by decide, hnext, hcode, hsingle, ?_⟩
  rw [hcode, unif_snd, hnext, hsingle]
  decide

/-- C15, amended: for `1 ≤ x ≤ 2147483646` with new state `x' = (16807 * x) mod 2147483647`,
`unif(x, 1, 99)` returns the value of the cast order integer state, `float` division,
`double` multiplication, truncation: `1 + trunc(mul64(div32(f32(x'), f32(m)), 99))`, the
`double` product being exact. -/
theorem unif_cast_order (x : Int) (h1 : 1 ≤ x) (hm : x ≤ 2147483646) :
    (unif x 1 99).1
      = 1 + truncToLong (fmul64 (fdiv32 (toFloat32 (16807 * x % 2147483647))
          (toFloat32 2147483647)) (toFloat64 99)) ∧
    fmul64 (fdiv32 (toFloat32 (16807 * x % 2147483647)) (toFloat32 2147483647)) (toFloat64 99)
      = fdiv32 (toFloat32 (16807 * x % 2147483647)) (toFloat32 2147483647) * 99 := by
  have hnext := nextSeed_eq_emod x (by omega) (by omega)
  constructor
  · rw [← hnext]
    rfl
  · obtain ⟨n, hn⟩ := Int.eq_ofNat_of_zero_le (show 0 ≤ 16807 * x % 2147483647 by omega)
    have h99 : toFloat64 99 = 99 := toFloat64_width
    rw [hn, fdiv32_state, h99, roundNat_eq]
    have hle := rneShift_le 24 n
    have e : ((rneShift n (Nat.log2 n + 1 - 24) * 2 ^ (Nat.log2 n + 1 - 24) : Nat) : ℚ)
        / 2147483648 * 99
        = ((rneShift n (Nat.log2 n + 1 - 24) * 99 : Nat) : ℚ)
          * (2 : ℚ) ^ (((Nat.log2 n + 1 - 24 : Nat) : Int) - 31) := by
      rw [zpow_sub₀ (by norm_num), zpow_natCast]
      push_cast
      norm_num
      ring
    unfold fmul64
    rw [e]
    apply roundSig_representable 53 _ _ (by norm_num)
    have : (2 : Nat) ^ 53 = 2 ^ 24 * 536870912 := by norm_num
    omega

theorem unif_cast_order_witness :
    (unif 1265594527 1 99).1
      = 1 + truncToLong (fmul64 (fdiv32 (toFloat32 (16807 * 1265594527 % 2147483647))
          (toFloat32 2147483647)) (toFloat64 99)) :=
  (unif_cast_order 1265594527 (by decide) (by decide)).1


/-- C19: for `1 ≤ x ≤ 2147483646` with new state `x' = (16807 * x) mod 2147483647`,
`unif(x, 1, 99)` returns `1 + ⌊R(x') * 99 / 2 ^ 31⌋`, where `R(x')` is `x'` rounded to 24
significant bits, to nearest, ties to even (an integer, `roundNat 24 x'`); the value lies in
`[1, 100]` and is 100 exactly when `x' ≥ 2147483584 = 2 ^ 31 - 64`, the states whose `float`
conversion is `2 ^ 31 = (float)m`. -/
theorem unif_value_closed_form (x : Int) (h1 : 1 ≤ x) (hm : x ≤ 2147483646) :
    (unif x 1 99).2 = 16807 * x % 2147483647 ∧
    toFloat32 (16807 * x % 2147483647)
      = ((roundNat 24 (16807 * x % 2147483647).toNat : Nat) : ℚ) ∧
    (unif x 1 99).1 = 1 + ⌊toFloat32 (16807 * x % 2147483647) * 99 / 2 ^ 31⌋ ∧
    1 ≤ (unif x 1 99).1 ∧ (unif x 1 99).1 ≤ 100 ∧
    ((unif x 1 99).1 = 100 ↔ 2147483584 ≤ 16807 * x % 2147483647) ∧
    (2147483584 ≤ 16807 * x % 2147483647 ↔
      toFloat32 (16807 * x % 2147483647) = toFloat32 2147483647) := by
  have hnext := nextSeed_eq_emod x (by omega) (by omega)
  have hrange : 0 ≤ 16807 * x % 2147483647 ∧ 16807 * x % 2147483647 < 2147483647 := by omega
  obtain ⟨n, hn⟩ := Int.eq_ofNat_of_zero_le hrange.1
  have hnlt : n < 2147483647 := by omega
  have hval := unif_fst x (by rw [hnext]; exact hrange.1)
  rw [hnext, hn, Int.toNat_ofNat] at hval
  have hle : roundNat 24 n ≤ 2147483648 := by
    have := roundNat_le n (by norm_num; omega)
    norm_num at this
    exact this
  have hfl : toFloat32 ((n : Nat) : Int) = ((roundNat 24 n : Nat) : ℚ) := toFloat32_natCast n
  have hfloor : ⌊((roundNat 24 n : Nat) : ℚ) * 99 / 2 ^ 31⌋
      = ((99 * roundNat 24 n / 2 ^ 31 : Nat) : Int) := by
    have e : ((roundNat 24 n : Nat) : ℚ) * 99 / 2 ^ 31
        = (((99 * roundNat 24 n : Nat) : Int) : ℚ) / ((2 ^ 31 : Nat) : ℚ) := by
      push_cast
      ring
    rw [e, Rat.floor_intCast_div_natCast]
    norm_cast
  have htop : (2147483584 ≤ n ↔ roundNat 24 n = 2147483648) := by
    constructor
    · intro h
      exact roundNat_top n h (by omega)
    · intro h
      by_contra hcon
      have := roundNat_lt n (by omega)
      norm_num at this
      omega
  rw [hn, Int.toNat_ofNat, unif_snd, hnext, hn, hfl, hfloor, hval, toFloat32_modulus]
  refine ⟨rfl, rfl, rfl, by omega, ?_, ?_, ?_⟩
  · norm_num
    omega
  · rw [show ((2147483584 : Int) ≤ (n : Int)) ↔ 2147483584 ≤ n by omega, htop]
    norm_num
    omega
  · rw [show ((2147483584 : Int) ≤ (n : Int)) ↔ 2147483584 ≤ n by omega, htop]
    constructor
    · intro h
      rw [h]
      norm_num
    · intro h
      exact_mod_cast h

theorem unif_value_closed_form_witness :
    ((unif 1510662174 1 99).1 = 100 ↔
      (2147483584 : Int) ≤ 16807 * 1510662174 % 2147483647) :=
  (unif_value_closed_form 1510662174 (by decide) (by decide)).2.2.2.2.2.1

/-! ## Period of the generator -/

theorem avoidsOne_from_one : avoidsOne 10000 1 = true := by decide!

theorem pow_succ_mul_mod (d x : Nat) :
    16807 ^ (d + 1) * x % 2147483647 = 16807 ^ d * lcgNat x % 2147483647 := by
  unfold lcgNat
  have h : 16807 ^ (d + 1) * x = 16807 ^ d * (16807 * x) := by ring
  rw [h]
  exact (Nat.ModEq.mul_left _ (Nat.mod_modEq (16807 * x) 2147483647)).symm

theorem avoidsOne_sound (n x : Nat) (h : avoidsOne n x = true) :
    ∀ d : Nat, 1 ≤ d → d ≤ n → 16807 ^ d * x % 2147483647 ≠ 1 := by
  induction n generalizing x with
  | zero => intro d h1 h0; omega
  | succ m ih =>
    unfold avoidsOne at h
    intro d h1 hd
    cases hy : lcgNat x with
    | zero => rw [hy] at h; simp at h
    | succ y =>
      rw [hy] at h
      simp only [Bool.and_eq_true, Bool.not_eq_true'] at h
      have hy0 : y ≠ 0 := by
        rintro rfl
        exact absurd h.1 (by decide)
      obtain ⟨k, rfl⟩ : ∃ k, d = k + 1 := ⟨d - 1, by omega⟩
      rw [pow_succ_mul_mod, hy]
      rcases Nat.eq_zero_or_pos k with rfl | hk
      · have hlt : lcgNat x < 2147483647 := Nat.mod_lt _ (by norm_num)
        rw [pow_zero, one_mul, Nat.mod_eq_of_lt (by omega)]
        omega
      · exact ih (y + 1) h.2 k hk (by omega)

theorem cursorAfter_eq_pow (n : Nat) (hn : n < 2147483647) (d : Nat) :
    cursorAfter (n : Int) d = ((16807 ^ d * n % 2147483647 : Nat) : Int) := by
  induction d with
  | zero =>
    rw [pow_zero, one_mul, Nat.mod_eq_of_lt hn]
    rfl
  | succ k ih =>
    show nextSeed (cursorAfter (n : Int) k) = _
    rw [ih, nextSeed_natCast _ (Nat.mod_lt _ (by norm_num))]
    congr 1
    unfold lcgNat
    have h : 16807 ^ (k + 1) * n = 16807 * (16807 ^ k * n) := by ring
    rw [h]
    exact Nat.ModEq.mul_left _ (Nat.mod_modEq (16807 ^ k * n) 2147483647)

theorem pow_states_distinct (n : Nat) (hcop : Nat.Coprime 2147483647 n) (i j : Nat)
    (hij : i < j) (hj : j ≤ 10000) :
    16807 ^ i * n % 2147483647 ≠ 16807 ^ j * n % 2147483647 := by
  intro heq
  obtain ⟨d, rfl⟩ : ∃ d, j = i + d := ⟨j - i, by omega⟩
  have hmul : Nat.Coprime 2147483647 16807 := by decide!
  have hc : Nat.gcd 2147483647 (16807 ^ i * n) = 1 :=
    Nat.Coprime.mul_right (Nat.Coprime.pow_right i hmul) hcop
  have hmod : 16807 ^ i * n * 1 ≡ 16807 ^ i * n * 16807 ^ d [MOD 2147483647] := by
    have e : 16807 ^ (i + d) * n = 16807 ^ i * n * 16807 ^ d := by ring
    rw [mul_one, ← e]
    exact heq
  have hone : 1 ≡ 16807 ^ d [MOD 2147483647] := Nat.ModEq.cancel_left_of_coprime hc hmod
  have hd : 16807 ^ d * 1 % 2147483647 = 1 := by
    rw [mul_one]
    exact hone.symm
  exact avoidsOne_sound 10000 1 avoidsOne_from_one d (by omega) (by omega) hd

theorem time_seeds_coprime :
    ∀ seed ∈ time_seeds, Nat.Coprime 2147483647 seed.toNat := by decide!

/-- C18: for every seed of `time_seeds`, the cursors along 10000 successive draws are
pairwise distinct (the seed itself included): the generator does not come back to an
earlier state within 10000 draws. -/
theorem cursors_pairwise_distinct :
    ∀ seed ∈ time_seeds, ∀ i j : Nat, i < j → j ≤ 10000 →
      cursorAfter seed i ≠ cursorAfter seed j := by
  intro seed hs i j hij hj
  have hr := time_seeds_range seed hs
  have hcop := time_seeds_coprime seed hs
  obtain ⟨n, rfl⟩ := Int.eq_ofNat_of_zero_le (show 0 ≤ seed by omega)
  rw [Int.toNat_ofNat] at hcop
  rw [cursorAfter_eq_pow n (by omega), cursorAfter_eq_pow n (by omega)]
  intro heq
  exact pow_states_distinct n hcop i j hij hj (by exact_mod_cast heq)

theorem cursors_pairwise_distinct_witness : cursorAfter 873654221 1 ≠ cursorAfter 873654221 2 :=
  cursors_pairwise_distinct 873654221 (by decide) 1 2 (by decide) (by decide)

end Taillard
